import Mathlib

/-!
Shallow embedding of the lyra task-orchestration library (Go).

Go maps carry an unspecified iteration order; every place the source ranges
over a map is modelled by an association list whose list order stands for one
legal iteration order.  Go reflection values are modelled by the GoVal and
GoType inductives below; a Go panic is modelled by the panicked outcome.
-/

namespace LyraSpec

/-- The closed set of error kinds of package errors (errors.go sentinels). -/
inductive ErrKind where
  | mustBeFunction
  | mustHaveAtLeastContext
  | firstParamMustBeContext
  | variadicNotSupported
  | mustReturnAtLeastError
  | singleReturnMustBeError
  | secondReturnMustBeError
  | tooManyReturnValues
  | taskIDEmpty
  | paramCountMismatch
  | duplicateTask
  | cyclicDependency
  | missingDependency
  | taskNotFound
  | invalidParamType
  deriving DecidableEq, Repr

/-- Runtime types as seen through reflect.  A base type carries the names of
the interfaces it implements; ifaceT is an interface type itself. -/
inductive GoType where
  | base (name : String) (impls : List String)
  | ptr (elem : GoType)
  | ifaceT (name : String)
  deriving DecidableEq, Repr

/-- reflect Type.Implements for a named interface. -/
def GoType.implementsIface : GoType → String → Bool
  | .base _ impls, n => impls.contains n
  | .ptr _, _ => false
  | .ifaceT m, n => m == n

/-- reflect Type.AssignableTo: identical types, or implementing an interface
target (the fragment of the Go assignability rules the library exercises). -/
def GoType.assignableTo (a b : GoType) : Bool :=
  a == b ||
    (match b with
     | .ifaceT n => a.implementsIface n
     | _ => false)

/-- Errors as built by the errors package.  wrap models errors.Wrapf and
fmt.Errorf with a percent-w verb (the base error stays recoverable via
errors.Is); msgE models a leaf error with only a message; joined models
stderr.Join.  The three structured constructors keep the Wrapf format
arguments of the corresponding call sites:
invalidParamTypeE i e a  ~  Wrapf(ErrInvalidParamType, "parameter i -> exptected type e, got a"),
taskNotFoundE k      ~  Wrapf(ErrTaskNotFound, "taskID:k"),
missingDependencyE n d  ~  Wrapf(ErrMissingDependency, "node n depends on non-existent node d"). -/
inductive LErr where
  | kind (k : ErrKind)
  | wrap (msg : String) (e : LErr)
  | msgE (msg : String)
  | joined (es : List LErr)
  | invalidParamTypeE (paramIdx : Nat) (expected actual : GoType)
  | taskNotFoundE (key : String)
  | missingDependencyE (node dep : String)
  deriving Repr

mutual

/-- errors.Is against one of the sentinel kinds. -/
def LErr.is : LErr → ErrKind → Bool
  | .kind k, k' => k == k'
  | .wrap _ e, k' => e.is k'
  | .msgE _, _ => false
  | .joined es, k' => LErr.anyIs es k'
  | .invalidParamTypeE _ _ _, k' => k' == .invalidParamType
  | .taskNotFoundE _, k' => k' == .taskNotFound
  | .missingDependencyE _ _, k' => k' == .missingDependency

/-- errors.Is over the members of a joined error. -/
def LErr.anyIs : List LErr → ErrKind → Bool
  | [], _ => false
  | e :: rest, k => e.is k || LErr.anyIs rest k

end

/-- Runtime values as seen through reflect: the untyped nil interface, typed
nil and non-nil pointers, struct values with named fields, scalar values
carrying a numeric payload, and non-nil error values. -/
inductive GoVal where
  | nilInterface
  | ptrNil (elem : GoType)
  | ptrVal (elem : GoType) (pointee : GoVal)
  | structVal (ty : GoType) (fields : List (String × GoVal))
  | prim (ty : GoType) (payload : Nat)
  | errVal (msg : String)
  deriving Repr

/-- reflect.TypeOf: none for the untyped nil (the zero reflect.Value, whose
Type method panics). -/
def GoVal.typeOf : GoVal → Option GoType
  | .nilInterface => none
  | .ptrNil e => some (.ptr e)
  | .ptrVal e _ => some (.ptr e)
  | .structVal t _ => some t
  | .prim t _ => some t
  | .errVal _ => some (.base "errorString" ["error"])

/-- reflect Value.IsNil on the values the engine inspects (interface and
pointer slots). -/
def GoVal.isNilV : GoVal → Bool
  | .nilInterface => true
  | .ptrNil _ => true
  | _ => false

/-- Go type assertion value.(error). -/
def GoVal.asError : GoVal → Option String
  | .errVal m => some m
  | _ => none

def GoVal.isPtrV : GoVal → Bool
  | .ptrNil _ => true
  | .ptrVal _ _ => true
  | _ => false

def GoVal.isStructV : GoVal → Bool
  | .structVal _ _ => true
  | _ => false

/-- reflect Kind rendered for error messages. -/
def GoVal.kindName : GoVal → String
  | .nilInterface => "invalid"
  | .ptrNil _ => "ptr"
  | .ptrVal _ _ => "ptr"
  | .structVal _ _ => "struct"
  | .prim _ _ => "scalar"
  | .errVal _ => "error"

/-- The reflect type of a function value: parameter types, result types and
the variadic flag. -/
structure FuncType where
  params : List GoType
  results : List GoType
  variadic : Bool
  deriving DecidableEq, Repr

/-- A callable function value: its reflect type together with its calling
semantics.  reflect Call always yields exactly NumOut values, recorded by
call_len. -/
structure TaskFn where
  ty : FuncType
  call : List GoVal → List GoVal
  call_len : ∀ args, (call args).length = ty.results.length

/-- A value handed to registration as the fn any argument. -/
inductive FnValue where
  | nilV
  | nonFn (t : GoType)
  | fnV (f : TaskFn)

/-- Cached signature metadata (struct functionInfo). -/
structure functionInfo where
  inputTypes : List GoType
  outputType : Option GoType
  deriving DecidableEq, Repr

def contextInterfaceName : String := "context.Context"
def errorInterfaceName : String := "error"

/-- validateParameters from the signature analyzer. -/
def validateParameters (fnType : FuncType) : Except LErr Unit :=
  if fnType.params.length < 1 then
    .error (.kind .mustHaveAtLeastContext)
  else if fnType.variadic then
    .error (.kind .variadicNotSupported)
  else
    match fnType.params with
    | [] => .error (.kind .mustHaveAtLeastContext)
    | firstParam :: _ =>
      if ¬ firstParam.implementsIface contextInterfaceName then
        .error (.kind .firstParamMustBeContext)
      else
        .ok ()

/-- validateReturns from the signature analyzer. -/
def validateReturns (fnType : FuncType) : Except LErr Unit :=
  match fnType.results with
  | [] => .error (.kind .mustReturnAtLeastError)
  | [r0] =>
    if ¬ r0.implementsIface errorInterfaceName then
      .error (.kind .singleReturnMustBeError)
    else .ok ()
  | [_, r1] =>
    if ¬ r1.implementsIface errorInterfaceName then
      .error (.kind .secondReturnMustBeError)
    else .ok ()
  | _ => .error (.kind .tooManyReturnValues)

/-- validateFunction: the Kind check happens at the caller by matching on
FnValue; the two inner validators wrap their errors with fmt.Errorf. -/
def validateFunction (fnType : FuncType) : Except LErr Unit :=
  match validateParameters fnType with
  | .error e => .error (.wrap "invalid parameters" e)
  | .ok _ =>
    match validateReturns fnType with
    | .error e => .error (.wrap "invalid returns" e)
    | .ok _ => .ok ()

/-- analyzeFunctionSignature: nil is rejected up front; a non-function Kind
is rejected inside validateFunction; on success the parameter types are
recorded in order and the output type is the first result when there are
two results. -/
def analyzeFunctionSignature (fn : FnValue) : Except LErr functionInfo :=
  match fn with
  | .nilV => .error (.kind .mustBeFunction)
  | .nonFn _ => .error (.wrap "invalid function signature" (.kind .mustBeFunction))
  | .fnV f =>
    match validateFunction f.ty with
    | .error e => .error (.wrap "invalid function signature" e)
    | .ok _ =>
      let outputType : Option GoType :=
        if f.ty.results.length = 2 then f.ty.results.head? else none
      .ok { inputTypes := f.ty.params, outputType := outputType }

/-- inputSpecType constants RuntimeInputSpec and TaskResultInputSpec. -/
inductive SpecType where
  | runtimeInput
  | taskResult
  deriving DecidableEq, Repr

/-- InputSpec: where one positional parameter of a task gets its value.  The
field path is the dot-joined string form used by the resolver (empty string
means no field extraction). -/
structure InputSpec where
  type : SpecType
  source : String
  field : String
  deriving DecidableEq, Repr

/-- Use: an input spec of kind task result; a non-empty field path is joined
with dots and trimmed of leading and trailing dots. -/
def Use (source : String) (fieldPath : List String) : InputSpec :=
  let field :=
    if fieldPath.length > 0 then
      (String.intercalate "." fieldPath).dropWhile (· = '.') |>.dropRightWhile (· = '.')
    else ""
  { type := .taskResult, source := source, field := field }

/-- UseRun: same as Use but of kind runtime input. -/
def UseRun (source : String) (fieldPath : List String) : InputSpec :=
  let it := Use source fieldPath
  { it with type := .runtimeInput }

/-- Task: a single registered task. -/
structure Task where
  id : String
  fn : FnValue
  fnInfo : functionInfo
  inputSpecs : List InputSpec

/-- Go strconv-style quoting as used by the percent-q verb (the ids in play
contain no characters needing escapes). -/
def goQuote (s : String) : String := "\"" ++ s ++ "\""

/-- Go strings.TrimSpace: drop whitespace from both ends. -/
def trimSpace (s : String) : String :=
  String.mk (((s.data.dropWhile Char.isWhitespace).reverse.dropWhile
    Char.isWhitespace).reverse)

/-- NewTask: trims the id only to test for emptiness, analyzes the function
signature, and checks the input-spec count against the parameter count. -/
def NewTask (id : String) (fn : FnValue) (inputSpecs : List InputSpec) :
    Except LErr Task :=
  if trimSpace id = "" then
    .error (.kind .taskIDEmpty)
  else
    match analyzeFunctionSignature fn with
    | .error e => .error (.wrap ("invalid function for task " ++ goQuote id) e)
    | .ok fnInfo =>
      if inputSpecs.length ≠ fnInfo.inputTypes.length - 1 then
        .error (.wrap
          ("invalid number of input specs for task " ++ goQuote id ++
            ", want: " ++ toString fnInfo.inputTypes.length ++
            ", got: " ++ toString (inputSpecs.length + 1))
          (.kind .paramCountMismatch))
      else
        .ok { id := id, fn := fn, fnInfo := fnInfo, inputSpecs := inputSpecs }

/-- Task.GetDependencies: sources of the task-result input specs, in order. -/
def Task.GetDependencies (t : Task) : List String :=
  (t.inputSpecs.filter (fun s => s.type = .taskResult)).map (fun s => s.source)

/-- Task.GetInputParams. -/
def Task.GetInputParams (t : Task) : List InputSpec × List GoType :=
  (t.inputSpecs, t.fnInfo.inputTypes)

/-- The result store: a map from string key to value, modelled as an
association list. -/
structure Result where
  data : List (String × GoVal)
  deriving Repr

def NewResult : Result := { data := [] }

/-- Go map assignment on an association list. -/
def setAssoc : List (String × GoVal) → String → GoVal → List (String × GoVal)
  | [], k, v => [(k, v)]
  | (k', v') :: rest, k, v =>
    if k' = k then (k, v) :: rest else (k', v') :: setAssoc rest k v

/-- Result.Get: the value for a key, or ErrTaskNotFound wrapped with the
key. -/
def Result.Get (r : Result) (taskID : String) : Except LErr GoVal :=
  match r.data.lookup taskID with
  | none => .error (.taskNotFoundE taskID)
  | some v => .ok v

/-- Result.set. -/
def Result.set (r : Result) (taskID : String) (v : GoVal) : Result :=
  { data := setAssoc r.data taskID v }

/-- Outcome of a piece of engine code: a value, a returned error, or a Go
panic. -/
inductive Outc (α : Type) where
  | ok (a : α)
  | err (e : LErr)
  | panicked
  deriving Repr

/-- Early-return sequencing of outcomes, mirroring the if err not nil
return pattern. -/
def Outc.bind {α β : Type} : Outc α → (α → Outc β) → Outc β
  | .ok a, f => f a
  | .err e, _ => .err e
  | .panicked, _ => .panicked

/-- extractNestedField: walk a dot-separated path through a value, with the
nil, pointer, struct, presence and exportedness checks of the source. -/
def extractSegments (value : GoVal) : List String → Outc GoVal
  | [] => .ok value
  | fieldName :: rest =>
    if value.isPtrV ∧ value.isNilV then
      .err (.msgE ("nil pointer encountered while accessing field " ++ goQuote fieldName))
    else
      let current :=
        match value with
        | .ptrVal _ pointee => pointee
        | v => v
      match current with
      | .structVal ty fields =>
        match fields.lookup fieldName with
        | none =>
          .err (.msgE ("field " ++ goQuote fieldName ++ " not found in type " ++ reprStr ty))
        | some fieldValue =>
          if ¬ (fieldName.data.head?.elim false Char.isUpper) then
            .err (.msgE ("field " ++ goQuote fieldName ++ " is not exported in type " ++ reprStr ty))
          else
            extractSegments fieldValue rest
      | v =>
        .err (.msgE ("field " ++ goQuote fieldName ++ " is not a struct (found " ++ v.kindName ++ ")"))

/-- extractNestedField on the dot-joined path string. -/
def extractNestedField (value : GoVal) (path : String) : Outc GoVal :=
  match value with
  | .nilInterface => .err (.msgE "value is nil")
  | v => extractSegments v (path.splitOn ".")

/-- The optional field-extraction of one resolver pass: a non-empty field
path walks the value and wraps any failure with the one-based human
parameter index (i plus two). -/
def extractStep (spec : InputSpec) (i : Nat) (value0 : GoVal) : Outc GoVal :=
  if spec.field ≠ "" then
    match extractNestedField value0 spec.field with
    | .ok v => .ok v
    | .err e => .err (.wrap ("parameter " ++ toString (i + 2)) e)
    | .panicked => .panicked
  else .ok value0

/-- One pass of the resolver loop of resolveInputs: spec number i (zero
based) fills argument position i plus one; types is the full parameter type
list including the leading context type. -/
def resolveLoop (taskID : String) (results : Result) (types : List GoType) :
    List InputSpec → Nat → Outc (List GoVal)
  | [], _ => .ok []
  | spec :: rest, i =>
    match results.Get spec.source with
    | .error e =>
      .err (.wrap
        ("failed to get " ++ spec.source ++ " for task " ++ goQuote taskID ++
          ", did you miss to set in run config") e)
    | .ok value0 =>
      Outc.bind (extractStep spec i value0) (fun value =>
        match types.get? (i + 1) with
        | none => .panicked
        | some expectedType =>
          match value.typeOf with
          | none => .panicked
          | some actualType =>
            if ¬ actualType.assignableTo expectedType then
              .err (.invalidParamTypeE (i + 2) expectedType actualType)
            else
              Outc.bind (resolveLoop taskID results types rest (i + 1))
                (fun args => .ok (value :: args)))

/-- resolveInputs: argument vector for a task, position zero being the
cancellation token. -/
def resolveInputs (ctx : GoVal) (task : Task) (results : Result) :
    Outc (List GoVal) :=
  match resolveLoop task.id results task.fnInfo.inputTypes task.inputSpecs 0 with
  | .ok args => .ok (ctx :: args)
  | .err e => .err e
  | .panicked => .panicked

/-! Dependency DAG (internal/graph/dependency_dag.go).  The prerequisite map
is an association list whose order stands for the Go map iteration order; the
in-degree table is a function updated pointwise.  The loop reuses the queue
slice backing array (nextQueue is queue sliced to length zero), so appends
performed while ranging over the queue overwrite entries of the array that
the range has not read yet; the model keeps the backing array explicit to
mirror that. -/

/-- A prerequisite map together with one iteration order. -/
abbrev DepGraph : Type := List (String × List String)

def graphKeys (g : DepGraph) : List String := g.map Prod.fst

def depsOf (g : DepGraph) (v : String) : List String := (g.lookup v).getD []

/-- getInDegree, error side: the first prerequisite that is not itself a
node, in iteration order. -/
def findMissingDep (ks : List String) : DepGraph → Option (String × String)
  | [] => none
  | (nodeID, deps) :: rest =>
    match deps.find? (fun depNode => ¬ ks.contains depNode) with
    | some depNode => some (nodeID, depNode)
    | none => findMissingDep ks rest

/-- getInDegree, success side: every node starts at zero and gains one per
listed prerequisite (duplicates counted per listing). -/
def initialInDegree (g : DepGraph) : String → Int :=
  fun v => if (graphKeys g).contains v then (depsOf g v).length else 0

/-- Reverse adjacency: nodeID is appended to the successors of each of its
listed prerequisites, one entry per listing, in iteration order. -/
def reverseDepsOf (g : DepGraph) (u : String) : List String :=
  g.flatMap (fun p => (p.2.filter (fun d => d = u)).map (fun _ => p.1))

/-- Loop state: the queue backing array (capacity fixed by the initial make),
the length of nextQueue built so far, and the in-degree table. -/
structure KState where
  arr : List String
  nextLen : Nat
  inD : String → Int

/-- Processing one successor: decrement its in-degree and, on reaching zero,
append it to nextQueue, writing into the shared backing array. -/
def procSucc (st : KState) (dependentID : String) : KState :=
  let d := st.inD dependentID - 1
  let inD' : String → Int := fun v => if v = dependentID then d else st.inD v
  if d = 0 then
    { arr := if st.nextLen < st.arr.length
             then st.arr.set st.nextLen dependentID
             else st.arr ++ [dependentID],
      nextLen := st.nextLen + 1,
      inD := inD' }
  else
    { st with inD := inD' }

/-- Processing one ranged-over queue entry: walk its reverse dependencies. -/
def procNode (g : DepGraph) (st : KState) (nodeID : String) : KState :=
  (reverseDepsOf g nodeID).foldl procSucc st

/-- One pass of the inner range loop: index i reads the backing array as it
stands when i is reached, so entries overwritten by earlier appends are read
in their overwritten state. -/
def runIndices (g : DepGraph) (qlen : Nat) (st0 : KState) : KState :=
  (List.range qlen).foldl (fun st i => procNode g st (st.arr.getD i "")) st0

/-- The outer Kahn loop.  fuel bounds the number of iterations; the caller
passes enough for any terminating run. -/
def kahnLevels (g : DepGraph) : Nat → List String → Nat → (String → Int) →
    List (List String)
  | 0, _, _, _ => []
  | fuel + 1, arr, qlen, inD =>
    if qlen = 0 then []
    else
      let currentLevel := arr.take qlen
      let st := runIndices g qlen { arr := arr, nextLen := 0, inD := inD }
      currentLevel :: kahnLevels g fuel st.arr st.nextLen st.inD

/-- GetExecutionLevels: empty-graph fast path, missing-dependency check,
initial frontier of in-degree-zero nodes (the backing array is allocated
with capacity equal to the node count), level loop, and the processed-count
cycle check. -/
def GetExecutionLevels (g : DepGraph) : Except LErr (List (List String)) :=
  if g.length = 0 then .ok []
  else
    match findMissingDep (graphKeys g) g with
    | some (nodeID, depNode) => .error (.missingDependencyE nodeID depNode)
    | none =>
      let inDegree := initialInDegree g
      let queue0 := (graphKeys g).filter (fun v => inDegree v = 0)
      let arr0 := queue0 ++ List.replicate (g.length - queue0.length) ""
      let levels := kahnLevels g (g.length + 1) arr0 queue0.length inDegree
      let processedCount := (levels.map List.length).sum
      if processedCount ≠ g.length then .error (.kind .cyclicDependency)
      else .ok levels

/-- The edge relation of a prerequisite map: an edge from u to v when u is
listed among the prerequisites of v. -/
def edgeRel (g : DepGraph) (u v : String) : Prop :=
  ∃ ds, (v, ds) ∈ g ∧ u ∈ ds

/-! Orchestrator (lyra.go).  The registry map is an association list in
insertion order; execution is instrumented with the list of task ids whose
callable was actually invoked.  Tasks of one stage run concurrently in Go;
the model serializes them in stage order, which is one legal interleaving
(result-store writes are serialized by its lock, and ids within a run are
pairwise distinct). -/

/-- The orchestrator: the task registry and the sticky registration error. -/
structure Lyra where
  tasks : List (String × Task)
  error : Option LErr

/-- New: empty registry, no pending error. -/
def New : Lyra := { tasks := [], error := none }

/-- The error a Do call records, if any: a NewTask failure wrapped with the
task id, or a duplicate-id failure.  Note that Do overwrites the sticky
error field unconditionally. -/
def regError (l : Lyra) (taskID : String) (fn : FnValue)
    (inputs : List InputSpec) : Option LErr :=
  match NewTask taskID fn inputs with
  | .error e => some (.wrap ("failed to add task " ++ goQuote taskID) e)
  | .ok _ =>
    if (l.tasks.lookup taskID).isSome then
      some (.wrap ("failed to add task " ++ goQuote taskID) (.kind .duplicateTask))
    else none

/-- Do: validate and insert a task; on failure store the (latest) error. -/
def Lyra.Do (l : Lyra) (taskID : String) (fn : FnValue)
    (inputs : List InputSpec) : Lyra :=
  match NewTask taskID fn inputs with
  | .error e =>
    { l with error := some (.wrap ("failed to add task " ++ goQuote taskID) e) }
  | .ok task =>
    if (l.tasks.lookup taskID).isSome then
      let e : LErr := .wrap ("failed to add task " ++ goQuote taskID) (.kind .duplicateTask)
      { l with error := some e }
    else
      { l with tasks := l.tasks ++ [(taskID, task)] }

/-- initialiseResult: a fresh store seeded with the runtime inputs. -/
def initialiseResult (runInputs : List (String × GoVal)) : Result :=
  runInputs.foldl (fun r p => r.set p.1 p.2) NewResult

/-- getStages: build the prerequisite map from the registry and compute the
execution levels, wrapping any graph error. -/
def Lyra.getStages (l : Lyra) : Except LErr (List (List String)) :=
  let taskGraph : DepGraph := l.tasks.map (fun p => (p.1, p.2.GetDependencies))
  match GetExecutionLevels taskGraph with
  | .error e => .error (.wrap "failed to build graph" e)
  | .ok stages => .ok stages

/-- Handling of the values returned by reflect Call: two values mean
(result, error) and a nil error stores the result under the task id; any
other shape only inspects the first value as the error.  The trailing type
assertion yields a nil error (hence success) for a non-error non-nil value,
which validated signatures never produce. -/
def handleCallValues (taskID : String) (r : Result) :
    List GoVal → Outc Unit × Result
  | [v0, v1] =>
    if v1.isNilV then (.ok (), r.set taskID v0)
    else
      match v1.asError with
      | some m => (.err (.msgE m), r)
      | none => (.ok (), r)
  | v0 :: _ =>
    if v0.isNilV then (.ok (), r)
    else
      match v0.asError with
      | some m => (.err (.msgE m), r)
      | none => (.ok (), r)
  | [] => (.panicked, r)

/-- executeTask: look the task up (a missing id would dereference a nil
pointer), resolve the inputs, call the function through reflect (which
panics for a non-function value or an argument-count mismatch) and handle
the returned values.  The third component records the invoked task ids. -/
def Lyra.executeTask (l : Lyra) (ctx : GoVal) (taskID : String) (r : Result) :
    Outc Unit × Result × List String :=
  match l.tasks.lookup taskID with
  | none => (.panicked, r, [])
  | some task =>
    match resolveInputs ctx task r with
    | .err e => (.err (.wrap "input resolution failed" e), r, [])
    | .panicked => (.panicked, r, [])
    | .ok args =>
      match task.fn with
      | .fnV f =>
        if args.length = f.ty.params.length then
          let (o, r') := handleCallValues taskID r (f.call args)
          (o, r', [taskID])
        else (.panicked, r, [])
      | _ => (.panicked, r, [])

/-- The fan-out of a multi-task stage: every task runs (each on its own
worker in Go), per-task errors are collected in order wrapped with the task
id, and a panicked worker crashes the process.  The model serializes the
workers in stage order. -/
def Lyra.runStageTasks (l : Lyra) (ctx : GoVal) :
    List String → Result → List LErr × Result × List String × Bool
  | [], r => ([], r, [], false)
  | taskID :: rest, r =>
    let (o, r1, tr1) := l.executeTask ctx taskID r
    let (errs, r2, tr2, pan) := l.runStageTasks ctx rest r1
    match o with
    | .ok _ => (errs, r2, tr1 ++ tr2, pan)
    | .err e => ((.wrap ("task " ++ goQuote taskID ++ " failed") e) :: errs, r2, tr1 ++ tr2, pan)
    | .panicked => (errs, r2, tr1 ++ tr2, true)

/-- executeStage: a single-task stage runs inline and returns its error
unwrapped; a multi-task stage fans out, waits, drains the error channel and
joins any errors. -/
def Lyra.executeStage (l : Lyra) (ctx : GoVal) (stage : List String)
    (r : Result) : Outc Unit × Result × List String :=
  match stage with
  | [taskID] => l.executeTask ctx taskID r
  | _ =>
    let (errs, r2, tr, pan) := l.runStageTasks ctx stage r
    if pan then (.panicked, r2, tr)
    else
      match errs with
      | [] => (.ok (), r2, tr)
      | _ => (.err (.joined errs), r2, tr)

/-- process: run the stages in order; the first stage error is wrapped and
ends the run, so no later stage executes. -/
def Lyra.processStages (l : Lyra) (ctx : GoVal) :
    List (List String) → Result → Outc Unit × Result × List String
  | [], r => (.ok (), r, [])
  | stage :: rest, r =>
    let (o, r1, tr1) := l.executeStage ctx stage r
    match o with
    | .ok _ =>
      let (o2, r2, tr2) := l.processStages ctx rest r1
      (o2, r2, tr1 ++ tr2)
    | .err e => (.err (.wrap "execute stage" e), r1, tr1)
    | .panicked => (.panicked, r1, tr1)

/-- What a call to Run produces: a normal return of the result handle and
error, or a crash of the process by an unrecovered panic. -/
inductive RunResult where
  | returned (res : Option Result) (e : Option LErr) (trace : List String)
  | crashed (trace : List String)

/-- Run: sticky build error first, then seed the store, compute the stages
and process them. -/
def Lyra.Run (l : Lyra) (ctx : GoVal) (runInputs : List (String × GoVal)) :
    RunResult :=
  match l.error with
  | some e => .returned none (some (.wrap "build error" e)) []
  | none =>
    let result := initialiseResult runInputs
    match l.getStages with
    | .error e => .returned none (some (.wrap "failed to get stages" e)) []
    | .ok stages =>
      match l.processStages ctx stages result with
      | (.ok _, r, tr) => .returned (some r) none tr
      | (.err e, _, tr) => .returned none (some (.wrap "failed to process stages" e)) tr
      | (.panicked, _, tr) => .crashed tr

/-! Concrete fixtures used by the witnesses, counterexamples and failing
inputs below. -/

def ctxT : GoType := .ifaceT "context.Context"
def errT : GoType := .ifaceT "error"
def intT : GoType := .base "int" []
def strT : GoType := .base "string" []

/-- A context value forwarded to the tasks. -/
def ctxVal : GoVal := .prim ctxT 0

/-- A function of shape (Context) to (int, error) that always fails. -/
def fnFailInt : FnValue :=
  .fnV { ty := { params := [ctxT], results := [intT, errT], variadic := false },
         call := fun _ => [.prim intT 0, .errVal "boom"],
         call_len := fun _ => rfl }

/-- A function of shape (Context, int) to error that always succeeds. -/
def fnConsumeInt : FnValue :=
  .fnV { ty := { params := [ctxT, intT], results := [errT], variadic := false },
         call := fun _ => [.nilInterface],
         call_len := fun _ => rfl }

/-- A function of shape (Context) to error that always succeeds. -/
def fnErrOnlyOk : FnValue :=
  .fnV { ty := { params := [ctxT], results := [errT], variadic := false },
         call := fun _ => [.nilInterface],
         call_len := fun _ => rfl }

/-- A function of shape (Context, pointer to string) to error. -/
def fnConsumePtrStr : FnValue :=
  .fnV { ty := { params := [ctxT, .ptr strT], results := [errT], variadic := false },
         call := fun _ => [.nilInterface],
         call_len := fun _ => rfl }

/-- An orchestrator with a failing first-level task and a dependent
second-level task. -/
def lC1 : Lyra := (New.Do "a" fnFailInt []).Do "b" fnConsumeInt [Use "a" []]

/-- An orchestrator built with two failing Do calls: a nil function first,
an empty id second. -/
def lC2 : Lyra := (New.Do "t1" .nilV []).Do "" fnConsumeInt [UseRun "k" []]

/-- An orchestrator with one error-only task. -/
def lC9 : Lyra := New.Do "t" fnErrOnlyOk []

/-- A task with a single field-free input descriptor reading key k. -/
def taskC10 : Task :=
  { id := "consumer",
    fn := fnConsumeInt,
    fnInfo := { inputTypes := [ctxT, intT], outputType := none },
    inputSpecs := [{ type := .taskResult, source := "k", field := "" }] }

/-- The single int-consuming input descriptor of the type-mismatch task. -/
def specC7 : InputSpec := { type := .taskResult, source := "producer", field := "" }

/-- A task whose second parameter is int, fed from key producer. -/
def taskC7 : Task :=
  { id := "consumer",
    fn := fnConsumeInt,
    fnInfo := { inputTypes := [ctxT, intT], outputType := none },
    inputSpecs := [specC7] }

/-- A registry holding only taskC7. -/
def lC7 : Lyra := { tasks := [("consumer", taskC7)], error := none }

/-- The single pointer-consuming input descriptor. -/
def specC7b : InputSpec := { type := .taskResult, source := "p", field := "" }

/-- A task whose second parameter is a pointer to string, fed from key p. -/
def taskC7b : Task :=
  { id := "consumer2",
    fn := fnConsumePtrStr,
    fnInfo := { inputTypes := [ctxT, .ptr strT], outputType := none },
    inputSpecs := [specC7b] }

/-- A registry holding only taskC7b. -/
def lC7b : Lyra := { tasks := [("consumer2", taskC7b)], error := none }

/-- Acyclic prerequisite map on which the level computation miscounts under
this iteration order: the append of u overwrites the yet-unread queue slot
of x, so x is emitted but never ranged over. -/
def gBug3 : DepGraph :=
  [("a", []), ("x", []), ("c", ["a"]), ("u", ["a"]), ("v", ["u"])]

/-- Acyclic prerequisite map on which the level computation reports a
cycle under this iteration order: b is overwritten by d before being read,
so the successor of b never reaches in-degree zero. -/
def gBug5 : DepGraph :=
  [("a", []), ("b", []), ("c", ["a"]), ("d", ["a"]), ("e", ["b"])]

/-- Cyclic prerequisite map (v and w require each other) on which the level
computation succeeds under this iteration order: u is ranged over twice, so
v reaches in-degree zero without its prerequisite w being processed. -/
def gCyc : DepGraph :=
  [("a", []), ("x", []), ("c", ["a"]), ("u", ["a"]), ("v", ["w", "u"]), ("w", ["v"])]

/-- The last element of a list of produced errors, or a fallback. -/
def lastOr (xs : List LErr) (d : Option LErr) : Option LErr :=
  match xs with
  | [] => d
  | e :: rest => lastOr rest (some e)

/-- One Do invocation: id, function value, input specs. -/
abbrev DoCall : Type := String × FnValue × List InputSpec

def applyDo (l : Lyra) (c : DoCall) : Lyra := l.Do c.1 c.2.1 c.2.2

def applyCalls (l : Lyra) (calls : List DoCall) : Lyra :=
  calls.foldl applyDo l

/-- The registration errors a sequence of Do calls produces, in call
order. -/
def errorsProduced : Lyra → List DoCall → List LErr
  | _, [] => []
  | l, c :: rest =>
    match regError l c.1 c.2.1 c.2.2 with
    | some e => e :: errorsProduced (applyDo l c) rest
    | none => errorsProduced (applyDo l c) rest

/-- The Do-call sequence that builds lC2. -/
def callsC2 : List DoCall :=
  [("t1", .nilV, []), ("", fnConsumeInt, [UseRun "k" []])]

/-- The parameter-side acceptance condition of the analyzer: non-variadic
with a leading cancellation-token parameter. -/
def ParamsOk (ft : FuncType) : Prop :=
  ft.variadic = false ∧
  ∃ p rest, ft.params = p :: rest ∧
    p.implementsIface contextInterfaceName = true

/-- Between two store states of one run, every key that appears afresh was
written by the two-return task registered under that same key. -/
def StoreGrowth (l : Lyra) (r r2 : Result) : Prop :=
  ∀ k, (r2.data.lookup k).isSome = true →
    (r.data.lookup k).isSome = true ∨
    ∃ task f, l.tasks.lookup k = some task ∧ task.fn = .fnV f ∧
      f.ty.results.length = 2

/-! Shared helper lemmas. -/

/-- A relation admitting a strictly monotone rank has no cycles. -/
theorem transGen_irrefl_of_rank {α : Type} (r : α → α → Prop) (f : α → Nat)
    (h : ∀ x y, r x y → f x < f y) : ∀ x, ¬ Relation.TransGen r x x := by
  have mono : ∀ x y, Relation.TransGen r x y → f x < f y := by
    intro x y hxy
    induction hxy with
    | single h1 => exact h _ _ h1
    | tail _ h2 ih => exact ih.trans (h _ _ h2)
  intro x hx
  exact absurd (mono x x hx) (lt_irrefl _)

/-- Every edge of gBug5 strictly raises this rank, so gBug5 is acyclic. -/
theorem gBug5_rank_mono :
    ∀ x y, edgeRel gBug5 x y →
      (if x = "c" ∨ x = "d" ∨ x = "e" then 1 else 0) <
        (if y = "c" ∨ y = "d" ∨ y = "e" then 1 else 0) := by
  rintro x y ⟨ds, hmem, hx⟩
  simp only [gBug5, List.mem_cons, List.not_mem_nil, or_false,
    Prod.mk.injEq] at hmem
  rcases hmem with ⟨hy, hds⟩ | ⟨hy, hds⟩ | ⟨hy, hds⟩ | ⟨hy, hds⟩ | ⟨hy, hds⟩ <;>
    subst hy <;> subst hds <;> simp_all

/-! Claim theorems. -/

/-- C3: on the acyclic, closed prerequisite map gBug3 — under a legal map
iteration order — GetExecutionLevels succeeds, yet the edge from u to v is
not respected: u and v both land in the level of index one (each occurs in
exactly that level), so the level containing u does not have a strictly
smaller index than the level containing v.  The slice-aliasing of nextQueue
with queue makes the range loop read u in place of the overwritten x. -/
theorem c3_level_order_violated :
    GetExecutionLevels gBug3 = .ok [["a", "x"], ["c", "u", "v"]] ∧
    edgeRel gBug3 "u" "v" ∧
    ([["a", "x"], ["c", "u", "v"]].filter (fun l => l.contains "u")) =
      [["c", "u", "v"]] ∧
    ([["a", "x"], ["c", "u", "v"]].filter (fun l => l.contains "v")) =
      [["c", "u", "v"]] ∧
    [["a", "x"], ["c", "u", "v"]].findIdx (fun l => l.contains "u") =
      [["a", "x"], ["c", "u", "v"]].findIdx (fun l => l.contains "v") :=
  ⟨rfl, ⟨["u"], by decide, by decide⟩, by decide, by decide, by decide⟩

/-- C4: the prerequisite map gCyc contains a cycle between v and w (all
prerequisites exist as nodes), yet — under a legal map iteration order —
GetExecutionLevels returns a level list successfully instead of the
CYCLIC_DEPENDENCY error: the aliasing makes u be ranged over twice, so its
duplicate decrements drive v to in-degree zero without w being processed. -/
theorem c4_cycle_not_reported :
    Relation.TransGen (edgeRel gCyc) "v" "v" ∧
    GetExecutionLevels gCyc = .ok [["a", "x"], ["c", "u"], ["v"], ["w"]] := by
  refine ⟨?_, rfl⟩
  have h1 : edgeRel gCyc "v" "w" := ⟨["v"], by decide, by decide⟩
  have h2 : edgeRel gCyc "w" "v" := ⟨["w", "u"], by decide, by decide⟩
  exact Relation.TransGen.head h1 (Relation.TransGen.single h2)

/-- C5: the prerequisite map gBug5 is acyclic and every prerequisite exists
as a node, yet — under a legal map iteration order — GetExecutionLevels
returns the CYCLIC_DEPENDENCY error instead of levels whose concatenation is
a permutation of the node set: the aliasing overwrites the unread queue slot
of b, so the successor of b never reaches in-degree zero and the processed
count stays short. -/
theorem c5_acyclic_reported_cyclic :
    GetExecutionLevels gBug5 = .error (.kind .cyclicDependency) ∧
    (∀ p ∈ gBug5, ∀ d ∈ p.2, d ∈ graphKeys gBug5) ∧
    (∀ u, ¬ Relation.TransGen (edgeRel gBug5) u u) := by
  refine ⟨rfl, by decide, ?_⟩
  exact transGen_irrefl_of_rank (edgeRel gBug5)
    (fun s => if s = "c" ∨ s = "d" ∨ s = "e" then 1 else 0) gBug5_rank_mono

/-- C5, witness: the closedness and acyclicity conjuncts of the gBug5
theorem applied at concrete nodes. -/
theorem c5_acyclic_reported_cyclic_witness :
    "a" ∈ graphKeys gBug5 ∧
    ¬ Relation.TransGen (edgeRel gBug5) "c" "c" :=
  ⟨c5_acyclic_reported_cyclic.2.1 ("c", ["a"]) (by decide) "a" (by decide),
   c5_acyclic_reported_cyclic.2.2 "c"⟩

/-- C10: when a task descriptor has an empty field path and its source key
is present in the result store but bound to the untyped nil value, the
resolver panics (reflect Value.Type on the zero Value) instead of returning
an error. -/
theorem c10_resolver_panics_on_nil :
    taskC10.inputSpecs.map InputSpec.field = [""] ∧
    Result.Get { data := [("k", .nilInterface)] } "k" = .ok .nilInterface ∧
    resolveInputs ctxVal taskC10 { data := [("k", .nilInterface)] } = .panicked :=
  ⟨rfl, rfl, rfl⟩

/-- C8, counterexample: NewTask accepts an id with surrounding whitespace
and stores it untrimmed, so the stored id differs from the whitespace
trimmed input id. -/
theorem c8_id_not_trimmed :
    (NewTask " a " fnErrOnlyOk []).map Task.id = .ok " a " ∧
    trimSpace " a " = "a" ∧ (" a " : String) ≠ "a" :=
  ⟨rfl, by decide, by decide⟩

/-- C8, amended: NewTask rejects an id that trims to empty with
TASK_ID_EMPTY; on success the stored id equals the input id as given (the
trim is used only for the emptiness test), so a stored id is non-empty
after trimming but may carry surrounding whitespace. -/
theorem c8_id_check (id : String) (fn : FnValue) (specs : List InputSpec) :
    (trimSpace id = "" → NewTask id fn specs = .error (.kind .taskIDEmpty)) ∧
    (∀ t, NewTask id fn specs = .ok t → t.id = id ∧ trimSpace id ≠ "") := by
  constructor
  · intro h
    unfold NewTask
    simp [h]
  · intro t ht
    unfold NewTask at ht
    split at ht
    · cases ht
    · rename_i h
      refine ⟨?_, h⟩
      cases ha : analyzeFunctionSignature fn with
      | error e => rw [ha] at ht; cases ht
      | ok info =>
        rw [ha] at ht
        dsimp only at ht
        by_cases hc : specs.length ≠ info.inputTypes.length - 1
        · rw [if_pos hc] at ht; cases ht
        · rw [if_neg hc] at ht
          cases ht
          rfl

/-- C8, witness: the amended claim at concrete inputs. -/
theorem c8_id_check_witness :
    NewTask "   " fnErrOnlyOk [] = .error (.kind .taskIDEmpty) ∧
    trimSpace " a " ≠ "" := by
  refine ⟨(c8_id_check "   " fnErrOnlyOk []).1 (by decide), ?_⟩
  exact ((c8_id_check " a " fnErrOnlyOk []).2
    { id := " a ", fn := fnErrOnlyOk,
      fnInfo := { inputTypes := [ctxT], outputType := none },
      inputSpecs := [] } rfl).2

/-- Do stores exactly the error regError describes, when there is one, and
keeps the previous sticky error otherwise. -/
theorem do_error_eq (l : Lyra) (taskID : String) (fn : FnValue)
    (inputs : List InputSpec) :
    (l.Do taskID fn inputs).error =
      match regError l taskID fn inputs with
      | some e => some e
      | none => l.error := by
  unfold Lyra.Do regError
  cases NewTask taskID fn inputs with
  | error e => rfl
  | ok task =>
    dsimp only
    by_cases h : (l.tasks.lookup taskID).isSome
    · rw [if_pos h, if_pos h]
    · rw [if_neg h, if_neg h]

/-- C2, counterexample: after a nil-function Do call followed by an
empty-id Do call, the sticky field holds the SECOND (latest) error, not the
first one, and Run surfaces that second error wrapped as a build error. -/
theorem c2_last_error_retained :
    regError New "t1" .nilV [] =
      some (.wrap "failed to add task \"t1\""
        (.wrap "invalid function for task \"t1\"" (.kind .mustBeFunction))) ∧
    lC2.error = some (.wrap "failed to add task \"\"" (.kind .taskIDEmpty)) ∧
    (LErr.wrap "failed to add task \"\"" (.kind .taskIDEmpty)) ≠
      (LErr.wrap "failed to add task \"t1\""
        (.wrap "invalid function for task \"t1\"" (.kind .mustBeFunction))) ∧
    lC2.Run ctxVal [] =
      .returned none
        (some (.wrap "build error" (.wrap "failed to add task \"\"" (.kind .taskIDEmpty)))) [] := by
  refine ⟨rfl, rfl, ?_, rfl⟩
  intro h
  have := congrArg (fun e => match e with | LErr.wrap m _ => m | _ => "") h
  simp at this

/-- C2, amended: the sticky error after a sequence of Do calls is the error
of the LAST failing call (each failing call overwrites the field), falling
back to the prior sticky error when no call of the sequence fails; Run
surfaces whatever sticky error is set, wrapped as a build error, and
executes nothing.  Earlier registration errors are validated but
discarded. -/
theorem c2_sticky_error_is_last (l : Lyra) (calls : List DoCall) :
    (applyCalls l calls).error = lastOr (errorsProduced l calls) l.error ∧
    (∀ (l2 : Lyra) (ctx : GoVal) (inputs : List (String × GoVal)) (e : LErr),
      l2.error = some e →
      l2.Run ctx inputs = .returned none (some (.wrap "build error" e)) []) := by
  constructor
  · induction calls generalizing l with
    | nil => rfl
    | cons c rest ih =>
      have hE : errorsProduced l (c :: rest) =
          (match regError l c.1 c.2.1 c.2.2 with
           | some e => e :: errorsProduced (applyDo l c) rest
           | none => errorsProduced (applyDo l c) rest) := rfl
      show (applyCalls (applyDo l c) rest).error =
        lastOr (errorsProduced l (c :: rest)) l.error
      rw [ih (applyDo l c), hE]
      have he := do_error_eq l c.1 c.2.1 c.2.2
      cases hr : regError l c.1 c.2.1 c.2.2 with
      | some e =>
        have h2 : (applyDo l c).error = some e := by
          unfold applyDo; rw [he, hr]
        rw [h2]
        rfl
      | none =>
        have h2 : (applyDo l c).error = l.error := by
          unfold applyDo; rw [he, hr]
        rw [h2]
  · intro l2 ctx inputs e he
    unfold Lyra.Run
    rw [he]

/-- C2, witness: the amended claim applied to the two-failure sequence of
lC2; the sticky error is the second failure and Run surfaces it. -/
theorem c2_sticky_error_is_last_witness :
    (applyCalls New callsC2).error =
      some (.wrap "failed to add task \"\"" (.kind .taskIDEmpty)) ∧
    (applyCalls New callsC2).Run ctxVal [] =
      .returned none
        (some (.wrap "build error"
          (.wrap "failed to add task \"\"" (.kind .taskIDEmpty)))) [] := by
  have h := c2_sticky_error_is_last New callsC2
  have h1 : (applyCalls New callsC2).error =
      some (.wrap "failed to add task \"\"" (.kind .taskIDEmpty)) :=
    h.1.trans rfl
  exact ⟨h1, h.2 (applyCalls New callsC2) ctxVal [] _ h1⟩

/-- Exhaustive case analysis of validateFunction. -/
theorem validateFunction_cases (params results : List GoType) (variadic : Bool) :
    validateFunction ⟨params, results, variadic⟩ =
      (match params, variadic with
       | [], _ => .error (.wrap "invalid parameters" (.kind .mustHaveAtLeastContext))
       | _ :: _, true => .error (.wrap "invalid parameters" (.kind .variadicNotSupported))
       | p :: _, false =>
         if p.implementsIface contextInterfaceName = true then
           (match results with
            | [] => .error (.wrap "invalid returns" (.kind .mustReturnAtLeastError))
            | [r0] =>
              if r0.implementsIface errorInterfaceName = true then .ok ()
              else .error (.wrap "invalid returns" (.kind .singleReturnMustBeError))
            | [_, r1] =>
              if r1.implementsIface errorInterfaceName = true then .ok ()
              else .error (.wrap "invalid returns" (.kind .secondReturnMustBeError))
            | _ => .error (.wrap "invalid returns" (.kind .tooManyReturnValues)))
         else .error (.wrap "invalid parameters" (.kind .firstParamMustBeContext))) := by
  unfold validateFunction validateParameters validateReturns
  cases params with
  | nil => simp
  | cons p ps =>
    cases variadic with
    | true => simp
    | false =>
      by_cases h : p.implementsIface contextInterfaceName = true
      · simp only [h, List.length_cons, Nat.not_lt_zero, Nat.succ_lt_succ_iff,
          if_false, Bool.false_eq_true, not_true_eq_false]
        cases results with
        | nil => simp
        | cons r0 rs =>
          cases rs with
          | nil =>
            by_cases h0 : r0.implementsIface errorInterfaceName = true <;> simp [h0]
          | cons r1 rs2 =>
            cases rs2 with
            | nil =>
              by_cases h1 : r1.implementsIface errorInterfaceName = true <;> simp [h1]
            | cons r2 rs3 => simp
      · simp [h]

/-- C6: the signature analyzer accepts exactly the non-variadic functions
whose first parameter satisfies the cancellation-token contract and whose
returns are a single error or a pair with an error second; on success the
recorded parameter types equal the function parameter types in order and
the output type is the first return type for two returns and null for one;
each rejected shape yields its specific error kind (nil and non-function
values yield MUST_BE_FUNCTION). -/
theorem c6_signature_analyzer (tf : TaskFn) (t0 : GoType) :
    (analyzeFunctionSignature .nilV = .error (.kind .mustBeFunction)) ∧
    (analyzeFunctionSignature (.nonFn t0) =
      .error (.wrap "invalid function signature" (.kind .mustBeFunction))) ∧
    ((∃ info, analyzeFunctionSignature (.fnV tf) = .ok info) ↔
      (ParamsOk tf.ty ∧
       ((∃ r, tf.ty.results = [r] ∧ r.implementsIface errorInterfaceName = true) ∨
        (∃ r1 r2, tf.ty.results = [r1, r2] ∧
          r2.implementsIface errorInterfaceName = true)))) ∧
    (∀ info, analyzeFunctionSignature (.fnV tf) = .ok info →
      info.inputTypes = tf.ty.params ∧
      info.outputType = (match tf.ty.results with
                         | [r1, _] => some r1
                         | _ => none)) ∧
    (tf.ty.params = [] →
      analyzeFunctionSignature (.fnV tf) =
        .error (.wrap "invalid function signature"
          (.wrap "invalid parameters" (.kind .mustHaveAtLeastContext)))) ∧
    (tf.ty.params ≠ [] → tf.ty.variadic = true →
      analyzeFunctionSignature (.fnV tf) =
        .error (.wrap "invalid function signature"
          (.wrap "invalid parameters" (.kind .variadicNotSupported)))) ∧
    (∀ p rest, tf.ty.params = p :: rest → tf.ty.variadic = false →
      p.implementsIface contextInterfaceName = false →
      analyzeFunctionSignature (.fnV tf) =
        .error (.wrap "invalid function signature"
          (.wrap "invalid parameters" (.kind .firstParamMustBeContext)))) ∧
    (ParamsOk tf.ty → tf.ty.results = [] →
      analyzeFunctionSignature (.fnV tf) =
        .error (.wrap "invalid function signature"
          (.wrap "invalid returns" (.kind .mustReturnAtLeastError)))) ∧
    (ParamsOk tf.ty → ∀ r, tf.ty.results = [r] →
      r.implementsIface errorInterfaceName = false →
      analyzeFunctionSignature (.fnV tf) =
        .error (.wrap "invalid function signature"
          (.wrap "invalid returns" (.kind .singleReturnMustBeError)))) ∧
    (ParamsOk tf.ty → ∀ r1 r2 r3 rs, tf.ty.results = r1 :: r2 :: r3 :: rs →
      analyzeFunctionSignature (.fnV tf) =
        .error (.wrap "invalid function signature"
          (.wrap "invalid returns" (.kind .tooManyReturnValues)))) ∧
    (ParamsOk tf.ty → ∀ r1 r2, tf.ty.results = [r1, r2] →
      r2.implementsIface errorInterfaceName = false →
      analyzeFunctionSignature (.fnV tf) =
        .error (.wrap "invalid function signature"
          (.wrap "invalid returns" (.kind .secondReturnMustBeError)))) := by
  obtain ⟨⟨params, results, variadic⟩, call, hlen⟩ := tf
  have hA : ∀ (res : Except LErr Unit),
      validateFunction ⟨params, results, variadic⟩ = res →
      analyzeFunctionSignature (.fnV ⟨⟨params, results, variadic⟩, call, hlen⟩) =
        (match res with
         | .error e => .error (.wrap "invalid function signature" e)
         | .ok _ =>
           .ok { inputTypes := params,
                 outputType := if results.length = 2 then results.head? else none }) := by
    intro res hres
    unfold analyzeFunctionSignature
    dsimp only
    rw [hres]
  have hvf := validateFunction_cases params results variadic
  refine ⟨rfl, rfl, ?_, ?_, ?_, ?_, ?_, ?_, ?_, ?_, ?_⟩
  · constructor
    · rintro ⟨info, hinfo⟩
      cases params with
      | nil => rw [hA _ hvf] at hinfo; cases hinfo
      | cons p ps =>
        cases variadic with
        | true => rw [hA _ hvf] at hinfo; cases hinfo
        | false =>
          by_cases hp : p.implementsIface contextInterfaceName = true
          · refine ⟨⟨rfl, p, ps, rfl, hp⟩, ?_⟩
            simp only [hp, if_true] at hvf
            cases results with
            | nil => rw [hA _ hvf] at hinfo; cases hinfo
            | cons r0 rs =>
              cases rs with
              | nil =>
                by_cases h0 : r0.implementsIface errorInterfaceName = true
                · exact Or.inl ⟨r0, rfl, h0⟩
                · simp only [h0, if_false] at hvf
                  rw [hA _ hvf] at hinfo; cases hinfo
              | cons r1 rs2 =>
                cases rs2 with
                | nil =>
                  by_cases h1 : r1.implementsIface errorInterfaceName = true
                  · exact Or.inr ⟨r0, r1, rfl, h1⟩
                  · simp only [h1, if_false] at hvf
                    rw [hA _ hvf] at hinfo; cases hinfo
                | cons r2 rs3 =>
                  rw [hA _ hvf] at hinfo; cases hinfo
          · simp only [hp] at hvf
            rw [hA _ hvf] at hinfo; cases hinfo
    · rintro ⟨⟨hv, p, ps, hps, hp⟩, hr⟩
      subst hv hps
      simp only [hp, if_true] at hvf
      rcases hr with ⟨r, hres, h0⟩ | ⟨r1, r2, hres, h1⟩
      · subst hres
        simp only [h0, if_true] at hvf
        exact ⟨_, hA _ hvf⟩
      · subst hres
        simp only [h1, if_true] at hvf
        exact ⟨_, hA _ hvf⟩
  · intro info hinfo
    cases hvr : validateFunction ⟨params, results, variadic⟩ with
    | error e => rw [hA _ hvr] at hinfo; cases hinfo
    | ok u =>
      rw [hA _ hvr] at hinfo
      cases hinfo
      refine ⟨rfl, ?_⟩
      rw [hvf] at hvr
      cases params with
      | nil => cases hvr
      | cons p ps =>
        cases variadic with
        | true => cases hvr
        | false =>
          by_cases hp : p.implementsIface contextInterfaceName = true
          · simp only [hp, if_true] at hvr
            cases results with
            | nil => cases hvr
            | cons r0 rs =>
              cases rs with
              | nil => simp
              | cons r1 rs2 =>
                cases rs2 with
                | nil => simp
                | cons r2 rs3 => cases hvr
          · simp only [hp] at hvr; cases hvr
  · intro hnil
    subst hnil
    exact hA _ hvf
  · intro hne hv
    subst hv
    cases params with
    | nil => exact absurd rfl hne
    | cons p ps => exact hA _ hvf
  · intro p rest hps hv hp
    subst hps hv
    simp only [hp, Bool.false_eq_true, if_false] at hvf
    exact hA _ hvf
  · rintro ⟨hv, p, ps, hps, hp⟩ hres
    subst hv hps hres
    simp only [hp, if_true] at hvf
    exact hA _ hvf
  · rintro ⟨hv, p, ps, hps, hp⟩ r hres h0
    subst hv hps hres
    simp only [hp, if_true, h0, Bool.false_eq_true, if_false] at hvf
    exact hA _ hvf
  · rintro ⟨hv, p, ps, hps, hp⟩ r1 r2 r3 rs hres
    subst hv hps hres
    simp only [hp, if_true] at hvf
    exact hA _ hvf
  · rintro ⟨hv, p, ps, hps, hp⟩ r1 r2 hres h1
    subst hv hps hres
    simp only [hp, if_true, h1, Bool.false_eq_true, if_false] at hvf
    exact hA _ hvf

/-- C6, witness: the analyzer at concrete shapes. -/
theorem c6_signature_analyzer_witness :
    analyzeFunctionSignature fnFailInt =
      .ok { inputTypes := [ctxT], outputType := some intT } ∧
    analyzeFunctionSignature .nilV = .error (.kind .mustBeFunction) := by
  have h := c6_signature_analyzer
    { ty := { params := [ctxT], results := [intT, errT], variadic := false },
      call := fun _ => [.prim intT 0, .errVal "boom"],
      call_len := fun _ => rfl } intT
  constructor
  · obtain ⟨info, hinfo⟩ := h.2.2.1.mpr
      ⟨⟨rfl, ctxT, [], rfl, by decide⟩, Or.inr ⟨intT, errT, rfl, by decide⟩⟩
    obtain ⟨h41, h42⟩ := h.2.2.2.1 info hinfo
    have hgoal : analyzeFunctionSignature fnFailInt = .ok info := hinfo
    rw [hgoal]
    cases info
    simp_all
  · exact h.1

@[simp]
theorem Outc.bind_ok {α β : Type} (a : α) (f : α → Outc β) :
    Outc.bind (.ok a) f = f a := rfl

@[simp]
theorem Outc.bind_err {α β : Type} (e : LErr) (f : α → Outc β) :
    Outc.bind (.err e) f = .err e := rfl

@[simp]
theorem Outc.bind_panicked {α β : Type} (f : α → Outc β) :
    Outc.bind (.panicked : Outc α) f = .panicked := rfl

theorem Outc.bind_assoc {α β γ : Type} (m : Outc α) (f : α → Outc β)
    (g : β → Outc γ) :
    Outc.bind (Outc.bind m f) g = Outc.bind m (fun a => Outc.bind (f a) g) := by
  cases m <;> rfl

@[simp]
theorem resolveLoop_nil (taskID : String) (results : Result)
    (types : List GoType) (i : Nat) :
    resolveLoop taskID results types [] i = .ok [] := rfl

theorem resolveLoop_cons (taskID : String) (results : Result)
    (types : List GoType) (spec : InputSpec) (rest : List InputSpec) (i : Nat) :
    resolveLoop taskID results types (spec :: rest) i =
      (match results.Get spec.source with
       | .error e =>
         .err (.wrap
           ("failed to get " ++ spec.source ++ " for task " ++ goQuote taskID ++
             ", did you miss to set in run config") e)
       | .ok value0 =>
         Outc.bind (extractStep spec i value0) (fun value =>
           match types.get? (i + 1) with
           | none => .panicked
           | some expectedType =>
             match value.typeOf with
             | none => .panicked
             | some actualType =>
               if ¬ actualType.assignableTo expectedType then
                 .err (.invalidParamTypeE (i + 2) expectedType actualType)
               else
                 Outc.bind (resolveLoop taskID results types rest (i + 1))
                   (fun args => .ok (value :: args)))) := by
  rw [resolveLoop]

/-- A successful resolver loop yields one argument per input spec. -/
theorem resolveLoop_length (taskID : String) (results : Result)
    (types : List GoType) (specs : List InputSpec) (i : Nat)
    (args : List GoVal)
    (h : resolveLoop taskID results types specs i = .ok args) :
    args.length = specs.length := by
  induction specs generalizing i args with
  | nil => rw [resolveLoop_nil] at h; cases h; rfl
  | cons spec rest ih =>
    rw [resolveLoop_cons] at h
    cases hg : results.Get spec.source with
    | error e => simp only [hg] at h; cases h
    | ok v0 =>
      simp only [hg] at h
      cases he : extractStep spec i v0 with
      | err e => simp only [he, Outc.bind_err] at h; cases h
      | panicked => simp only [he, Outc.bind_panicked] at h; cases h
      | ok value =>
        simp only [he, Outc.bind_ok] at h
        cases ht : types.get? (i + 1) with
        | none => simp only [ht] at h; cases h
        | some expected =>
          simp only [ht] at h
          cases hv : value.typeOf with
          | none => simp only [hv] at h; cases h
          | some actual =>
            simp only [hv] at h
            by_cases ha : actual.assignableTo expected = true
            · rw [if_neg (by simp [ha])] at h
              cases hr : resolveLoop taskID results types rest (i + 1) with
              | ok args2 =>
                rw [hr, Outc.bind_ok] at h
                cases h
                simp [ih _ _ hr]
              | err e => rw [hr, Outc.bind_err] at h; cases h
              | panicked => rw [hr, Outc.bind_panicked] at h; cases h
            · rw [if_pos (by simpa using ha)] at h
              cases h

/-- Splitting the resolver loop at a list append. -/
theorem resolveLoop_append (taskID : String) (results : Result)
    (types : List GoType) (pre suf : List InputSpec) (i : Nat) :
    resolveLoop taskID results types (pre ++ suf) i =
      Outc.bind (resolveLoop taskID results types pre i) (fun args =>
        Outc.bind (resolveLoop taskID results types suf (i + pre.length))
          (fun args2 => .ok (args ++ args2))) := by
  induction pre generalizing i with
  | nil =>
    show resolveLoop taskID results types suf i = _
    rw [resolveLoop_nil, Outc.bind_ok]
    show _ = Outc.bind (resolveLoop taskID results types suf i) _
    cases resolveLoop taskID results types suf i with
    | ok args2 => simp
    | err e => rfl
    | panicked => rfl
  | cons spec ps ih =>
    show resolveLoop taskID results types (spec :: (ps ++ suf)) i = _
    rw [resolveLoop_cons, resolveLoop_cons]
    cases hg : results.Get spec.source with
    | error e => rfl
    | ok v0 =>
      dsimp only
      rw [Outc.bind_assoc]
      cases he : extractStep spec i v0 with
      | err e => rfl
      | panicked => rfl
      | ok value =>
        simp only [Outc.bind_ok]
        cases ht : types.get? (i + 1) with
        | none => rfl
        | some expected =>
          dsimp only
          cases hv : value.typeOf with
          | none => rfl
          | some actual =>
            dsimp only
            by_cases ha : actual.assignableTo expected = true
            · rw [if_neg (by simp [ha]), if_neg (by simp [ha])]
              rw [ih (i + 1), Outc.bind_assoc]
              have hidx : i + 1 + ps.length = i + (ps.length + 1) := by omega
              rw [hidx]
              conv_rhs => rw [Outc.bind_assoc]
              simp only [List.length_cons]
              cases resolveLoop taskID results types ps (i + 1) with
              | ok a =>
                simp only [Outc.bind_ok]
                rw [Outc.bind_assoc]
                cases resolveLoop taskID results types suf (i + (ps.length + 1)) <;> simp
              | err e => rfl
              | panicked => rfl
            · rw [if_pos (by simpa using ha), if_pos (by simpa using ha)]
              rfl

/-- C7: for a task whose descriptor at zero-based position i (here the
position after the prefix pre) resolves — after the optional field
extraction — to a value whose runtime type is not assignable to parameter
type i plus one, the resolver fails with INVALID_PARAM_TYPE carrying the
one-based human index i plus two and the expected and actual types, and
executeTask returns that error wrapped, leaving the store untouched and the
callable uninvoked; conversely a typed nil pointer of the exact expected
pointer type passes the check and lands in argument position i plus one of
the vector handed to the callable. -/
theorem c7_type_enforcement (l : Lyra) (ctx : GoVal) (taskID : String)
    (task : Task) (results : Result) (pre post : List InputSpec)
    (d : InputSpec) (argsPre : List GoVal) (v w : GoVal) (t expected : GoType)
    (hlookup : l.tasks.lookup taskID = some task)
    (hspecs : task.inputSpecs = pre ++ d :: post)
    (hpre : resolveLoop task.id results task.fnInfo.inputTypes pre 0 = .ok argsPre)
    (hsrc : results.Get d.source = .ok v)
    (hext : extractStep d pre.length v = .ok w)
    (htype : w.typeOf = some t)
    (hexp : task.fnInfo.inputTypes.get? (pre.length + 1) = some expected) :
    (t.assignableTo expected = false →
      resolveInputs ctx task results =
        .err (.invalidParamTypeE (pre.length + 2) expected t) ∧
      l.executeTask ctx taskID results =
        (.err (.wrap "input resolution failed"
          (.invalidParamTypeE (pre.length + 2) expected t)), results, [])) ∧
    (∀ p, w = .ptrNil p → expected = .ptr p →
      ∀ argsPost,
        resolveLoop task.id results task.fnInfo.inputTypes post (pre.length + 1) =
          .ok argsPost →
        resolveInputs ctx task results = .ok (ctx :: (argsPre ++ w :: argsPost)) ∧
        (ctx :: (argsPre ++ w :: argsPost)).get? (pre.length + 1) = some w) := by
  have hfull := resolveLoop_append task.id results task.fnInfo.inputTypes
    pre (d :: post) 0
  simp only [Nat.zero_add] at hfull
  rw [hpre, Outc.bind_ok] at hfull
  constructor
  · intro hassign
    have hstep : resolveLoop task.id results task.fnInfo.inputTypes
        (d :: post) pre.length =
        .err (.invalidParamTypeE (pre.length + 2) expected t) := by
      rw [resolveLoop_cons, hsrc]
      dsimp only
      rw [hext, Outc.bind_ok, hexp]
      dsimp only
      rw [htype]
      dsimp only
      rw [if_pos (by simp [hassign])]
    rw [hstep, Outc.bind_err] at hfull
    have hres : resolveInputs ctx task results =
        .err (.invalidParamTypeE (pre.length + 2) expected t) := by
      unfold resolveInputs
      rw [hspecs, hfull]
    refine ⟨hres, ?_⟩
    unfold Lyra.executeTask
    rw [hlookup]
    dsimp only
    rw [hres]
  · intro p hw hexpd argsPost hpost
    subst hw hexpd
    have ht2 : t = GoType.ptr p := by
      rw [GoVal.typeOf] at htype
      cases htype
      rfl
    subst ht2
    have hstep : resolveLoop task.id results task.fnInfo.inputTypes
        (d :: post) pre.length = .ok (GoVal.ptrNil p :: argsPost) := by
      rw [resolveLoop_cons, hsrc]
      dsimp only
      rw [hext, Outc.bind_ok, hexp]
      dsimp only
      rw [htype]
      dsimp only
      rw [if_neg (by simp [GoType.assignableTo])]
      rw [hpost, Outc.bind_ok]
    rw [hstep, Outc.bind_ok] at hfull
    have hres : resolveInputs ctx task results =
        .ok (ctx :: (argsPre ++ GoVal.ptrNil p :: argsPost)) := by
      unfold resolveInputs
      rw [hspecs, hfull]
    refine ⟨hres, ?_⟩
    have hlen : argsPre.length = pre.length :=
      resolveLoop_length task.id results task.fnInfo.inputTypes pre 0 argsPre hpre
    show (argsPre ++ GoVal.ptrNil p :: argsPost).get? pre.length = some _
    rw [← hlen]
    rw [List.get?_append_right (Nat.le_refl _)]
    simp

/-- C7, witness: the mismatch half at a string-valued producer feeding an
int parameter, and the nil-pointer half at a pointer-to-string parameter. -/
theorem c7_type_enforcement_witness :
    lC7.executeTask ctxVal "consumer" { data := [("producer", .prim strT 3)] } =
      (.err (.wrap "input resolution failed" (.invalidParamTypeE 2 intT strT)),
        { data := [("producer", .prim strT 3)] }, []) ∧
    resolveInputs ctxVal taskC7b { data := [("p", .ptrNil strT)] } =
      .ok [ctxVal, .ptrNil strT] := by
  constructor
  · exact ((c7_type_enforcement lC7 ctxVal "consumer" taskC7
      { data := [("producer", .prim strT 3)] } [] [] specC7 []
      (.prim strT 3) (.prim strT 3) strT intT
      rfl rfl rfl rfl rfl rfl rfl).1 rfl).2
  · exact (((c7_type_enforcement lC7b ctxVal "consumer2" taskC7b
      { data := [("p", .ptrNil strT)] } [] [] specC7b []
      (.ptrNil strT) (.ptrNil strT) (.ptr strT) (.ptr strT)
      rfl rfl rfl rfl rfl rfl rfl).2 strT rfl rfl [] rfl).1)

/-- Map assignment resolves lookups pointwise. -/
theorem setAssoc_lookup (d : List (String × GoVal)) (k : String) (v : GoVal)
    (k2 : String) :
    (setAssoc d k v).lookup k2 = if k2 = k then some v else d.lookup k2 := by
  induction d with
  | nil =>
    by_cases h : k2 = k
    · subst h
      simp [setAssoc, List.lookup]
    · simp [setAssoc, List.lookup, beq_eq_false_iff_ne.mpr h, h]
  | cons p rest ih =>
    obtain ⟨k3, v3⟩ := p
    by_cases h3 : k3 = k
    · subst h3
      simp only [setAssoc, if_pos rfl]
      by_cases h : k2 = k3
      · subst h
        simp [List.lookup]
      · simp [List.lookup, beq_eq_false_iff_ne.mpr h, h]
    · simp only [setAssoc, if_neg h3]
      by_cases h : k2 = k3
      · subst h
        simp [List.lookup, if_neg h3]
      · simp only [List.lookup, beq_eq_false_iff_ne.mpr h]
        rw [ih]

theorem storeGrowth_refl (l : Lyra) (r : Result) : StoreGrowth l r r :=
  fun _ h => Or.inl h

theorem storeGrowth_trans (l : Lyra) (r1 r2 r3 : Result)
    (h12 : StoreGrowth l r1 r2) (h23 : StoreGrowth l r2 r3) :
    StoreGrowth l r1 r3 := by
  intro k h3
  rcases h23 k h3 with h2 | hreg
  · exact h12 k h2
  · exact Or.inr hreg

/-- An executed task only ever adds its own key, and only when its function
has two results. -/
theorem executeTask_growth (l : Lyra) (ctx : GoVal) (tid : String)
    (r : Result) : StoreGrowth l r (l.executeTask ctx tid r).2.1 := by
  unfold Lyra.executeTask
  cases hl : l.tasks.lookup tid with
  | none => exact storeGrowth_refl l r
  | some task =>
    dsimp only
    cases resolveInputs ctx task r with
    | err e => exact storeGrowth_refl l r
    | panicked => exact storeGrowth_refl l r
    | ok args =>
      dsimp only
      cases hfn : task.fn with
      | nilV => exact storeGrowth_refl l r
      | nonFn t => exact storeGrowth_refl l r
      | fnV f =>
        dsimp only
        by_cases hargs : args.length = f.ty.params.length
        · rw [if_pos hargs]
          dsimp only
          have hcl := f.call_len args
          cases hc : f.call args with
          | nil => exact storeGrowth_refl l r
          | cons v0 rest =>
            cases rest with
            | nil =>
              simp only [handleCallValues]
              by_cases hnil : v0.isNilV = true
              · rw [if_pos hnil]; exact storeGrowth_refl l r
              · rw [if_neg hnil]
                cases v0.asError <;> exact storeGrowth_refl l r
            | cons v1 rest2 =>
              cases rest2 with
              | nil =>
                simp only [handleCallValues]
                by_cases hnil : v1.isNilV = true
                · rw [if_pos hnil]
                  intro k hk
                  rw [Result.set] at hk
                  dsimp only at hk
                  rw [setAssoc_lookup] at hk
                  by_cases hkt : k = tid
                  · subst hkt
                    refine Or.inr ⟨task, f, hl, hfn, ?_⟩
                    rw [hc] at hcl
                    exact hcl.symm
                  · rw [if_neg hkt] at hk
                    exact Or.inl hk
                · rw [if_neg hnil]
                  cases v1.asError <;> exact storeGrowth_refl l r
              | cons v2 rest3 =>
                simp only [handleCallValues]
                by_cases hnil : v0.isNilV = true
                · rw [if_pos hnil]; exact storeGrowth_refl l r
                · rw [if_neg hnil]
                  cases v0.asError <;> exact storeGrowth_refl l r
        · rw [if_neg hargs]
          exact storeGrowth_refl l r

/-- The stage fan-out only adds keys of two-return tasks. -/
theorem runStageTasks_growth (l : Lyra) (ctx : GoVal) (stage : List String)
    (r : Result) : StoreGrowth l r (l.runStageTasks ctx stage r).2.1 := by
  induction stage generalizing r with
  | nil => exact storeGrowth_refl l r
  | cons tid rest ih =>
    unfold Lyra.runStageTasks
    cases hex : l.executeTask ctx tid r with
    | mk o rest2 =>
      obtain ⟨r1, tr1⟩ := rest2
      have h1 := executeTask_growth l ctx tid r
      rw [hex] at h1
      dsimp only
      cases hrs : l.runStageTasks ctx rest r1 with
      | mk errs rest3 =>
        obtain ⟨r2, tr2, pan⟩ := rest3
        have h2 := ih r1
        rw [hrs] at h2
        have h3 := storeGrowth_trans l r r1 r2 h1 h2
        cases o <;> exact h3

/-- A stage only adds keys of two-return tasks. -/
theorem executeStage_growth (l : Lyra) (ctx : GoVal) (stage : List String)
    (r : Result) : StoreGrowth l r (l.executeStage ctx stage r).2.1 := by
  unfold Lyra.executeStage
  cases stage with
  | nil =>
    have h := runStageTasks_growth l ctx [] r
    cases hrs : l.runStageTasks ctx [] r with
    | mk errs rest3 =>
      obtain ⟨r2, tr2, pan⟩ := rest3
      rw [hrs] at h
      dsimp only
      cases pan <;> [skip; exact h]
      cases errs <;> exact h
  | cons tid rest =>
    cases rest with
    | nil => exact executeTask_growth l ctx tid r
    | cons tid2 rest2 =>
      have h := runStageTasks_growth l ctx (tid :: tid2 :: rest2) r
      cases hrs : l.runStageTasks ctx (tid :: tid2 :: rest2) r with
      | mk errs rest3 =>
        obtain ⟨r2, tr2, pan⟩ := rest3
        rw [hrs] at h
        dsimp only
        cases pan <;> [skip; exact h]
        cases errs <;> exact h

/-- A full run only adds keys of two-return tasks. -/
theorem processStages_growth (l : Lyra) (ctx : GoVal)
    (stages : List (List String)) (r : Result) :
    StoreGrowth l r (l.processStages ctx stages r).2.1 := by
  induction stages generalizing r with
  | nil => exact storeGrowth_refl l r
  | cons stage rest ih =>
    unfold Lyra.processStages
    cases hex : l.executeStage ctx stage r with
    | mk o rest2 =>
      obtain ⟨r1, tr1⟩ := rest2
      have h1 := executeStage_growth l ctx stage r
      rw [hex] at h1
      dsimp only
      cases o with
      | ok u =>
        cases hps : l.processStages ctx rest r1 with
        | mk o2 rest3 =>
          obtain ⟨r2, tr2⟩ := rest3
          have h2 := ih r1
          rw [hps] at h2
          exact storeGrowth_trans l r r1 r2 h1 h2
      | err e => exact h1
      | panicked => exact h1

/-- Folding map assignments only adds the folded keys. -/
theorem foldl_set_keys (inputs : List (String × GoVal)) (r : Result)
    (k : String)
    (hr : (((inputs.foldl (fun r p => r.set p.1 p.2) r).data).lookup k).isSome
      = true) :
    (r.data.lookup k).isSome = true ∨ k ∈ inputs.map Prod.fst := by
  induction inputs generalizing r with
  | nil => exact Or.inl hr
  | cons p rest ih =>
    rcases ih (r.set p.1 p.2) hr with hbase | hmem
    · rw [Result.set] at hbase
      dsimp only at hbase
      rw [setAssoc_lookup] at hbase
      by_cases hk : k = p.1
      · subst hk; exact Or.inr (by simp)
      · rw [if_neg hk] at hbase
        exact Or.inl hbase
    · exact Or.inr (by simp [hmem])

/-- The seeded store only holds runtime-input keys. -/
theorem initialiseResult_keys (runInputs : List (String × GoVal)) (k : String)
    (h : (((initialiseResult runInputs).data).lookup k).isSome = true) :
    k ∈ runInputs.map Prod.fst := by
  rcases foldl_set_keys runInputs NewResult k h with hbase | hmem
  · rw [NewResult] at hbase
    simp [List.lookup] at hbase
  · exact hmem

/-- C9, counterexample: lC9 registers the error-only task t, which completes
without error, yet after the run Get t succeeds, because a runtime input was
seeded under the same key t (runtime inputs and task outputs share the
store namespace). -/
theorem c9_runtime_key_collision :
    lC9.Run ctxVal [("t", .prim intT 7)] =
      .returned (some { data := [("t", .prim intT 7)] }) none ["t"] ∧
    Result.Get { data := [("t", .prim intT 7)] } "t" = .ok (.prim intT 7) :=
  ⟨rfl, rfl⟩

/-- C9, amended: an error-only task never writes to the store (its
successful execution leaves the store unchanged), and after a run that
returned successfully, Get of its id yields TASK_NOT_FOUND provided the id
is not among the runtime-input keys; only two-return tasks (or the seeded
runtime inputs) ever produce a store entry under a key. -/
theorem c9_error_only_task_not_found (l : Lyra) (ctx : GoVal)
    (runInputs : List (String × GoVal)) (id : String) (task : Task)
    (f : TaskFn) (res : Result) (tr : List String)
    (hreg : l.tasks.lookup id = some task)
    (hfn : task.fn = .fnV f)
    (hshape : f.ty.results.length = 1)
    (hrun : l.Run ctx runInputs = .returned (some res) none tr)
    (hnotin : id ∉ runInputs.map Prod.fst) :
    res.Get id = .error (.taskNotFoundE id) ∧
    (∀ r : Result, (l.executeTask ctx id r).2.1 = r) := by
  constructor
  · have hgrow : StoreGrowth l (initialiseResult runInputs) res := by
      unfold Lyra.Run at hrun
      cases hte : l.error with
      | some e => rw [hte] at hrun; cases hrun
      | none =>
        rw [hte] at hrun
        dsimp only at hrun
        cases hst : l.getStages with
        | error e => rw [hst] at hrun; cases hrun
        | ok stages =>
          rw [hst] at hrun
          dsimp only at hrun
          have h := processStages_growth l ctx stages (initialiseResult runInputs)
          cases hps : l.processStages ctx stages (initialiseResult runInputs) with
          | mk o rest2 =>
            obtain ⟨r2, tr2⟩ := rest2
            rw [hps] at hrun h
            cases o with
            | ok u => cases hrun; exact h
            | err e => cases hrun
            | panicked => cases hrun
    rw [Result.Get]
    cases hlk : res.data.lookup id with
    | none => rfl
    | some v =>
      exfalso
      rcases hgrow id (by rw [hlk]; rfl) with hseed | ⟨task2, f2, hreg2, hfn2, hlen2⟩
      · exact hnotin (initialiseResult_keys runInputs id hseed)
      · rw [hreg] at hreg2
        cases hreg2
        rw [hfn] at hfn2
        cases hfn2
        rw [hshape] at hlen2
        cases hlen2
  · intro r
    unfold Lyra.executeTask
    rw [hreg]
    dsimp only
    cases resolveInputs ctx task r with
    | err e => rfl
    | panicked => rfl
    | ok args =>
      dsimp only
      rw [hfn]
      dsimp only
      by_cases hargs : args.length = f.ty.params.length
      · rw [if_pos hargs]
        dsimp only
        have hcl := f.call_len args
        rw [hshape] at hcl
        cases hc : f.call args with
        | nil => rw [hc] at hcl; cases hcl
        | cons v0 rest =>
          cases rest with
          | nil =>
            simp only [handleCallValues]
            by_cases hnil : v0.isNilV = true
            · rw [if_pos hnil]
            · rw [if_neg hnil]
              cases v0.asError <;> rfl
          | cons v1 rest2 =>
            rw [hc] at hcl
            simp at hcl
      · rw [if_neg hargs]

/-- A task execution can only record its own id as invoked. -/
theorem executeTask_trace (l : Lyra) (ctx : GoVal) (tid : String)
    (r : Result) : ∀ id ∈ (l.executeTask ctx tid r).2.2, id = tid := by
  unfold Lyra.executeTask
  cases hl : l.tasks.lookup tid with
  | none => intro id h; cases h
  | some task =>
    dsimp only
    cases resolveInputs ctx task r with
    | err e => intro id h; cases h
    | panicked => intro id h; cases h
    | ok args =>
      dsimp only
      cases task.fn with
      | nilV => intro id h; cases h
      | nonFn t => intro id h; cases h
      | fnV f =>
        dsimp only
        by_cases hargs : args.length = f.ty.params.length
        · rw [if_pos hargs]
          dsimp only
          cases hh : handleCallValues tid r (f.call args) with
          | mk o r2 =>
            intro id h
            exact List.mem_singleton.mp h
        · rw [if_neg hargs]
          intro id h; cases h

/-- The fan-out records only ids of the stage. -/
theorem runStageTasks_trace (l : Lyra) (ctx : GoVal) (stage : List String)
    (r : Result) : ∀ id ∈ (l.runStageTasks ctx stage r).2.2.1, id ∈ stage := by
  induction stage generalizing r with
  | nil => intro id h; cases h
  | cons tid rest ih =>
    unfold Lyra.runStageTasks
    cases hex : l.executeTask ctx tid r with
    | mk o rest2 =>
      obtain ⟨r1, tr1⟩ := rest2
      dsimp only
      cases hrs : l.runStageTasks ctx rest r1 with
      | mk errs rest3 =>
        obtain ⟨r2, tr2, pan⟩ := rest3
        dsimp only
        have h1 := executeTask_trace l ctx tid r
        rw [hex] at h1
        dsimp only at h1
        have h2 := ih r1
        rw [hrs] at h2
        dsimp only at h2
        have hall : ∀ id ∈ tr1 ++ tr2, id ∈ tid :: rest := by
          intro id h
          rcases List.mem_append.mp h with ha | hb
          · exact (h1 id ha) ▸ List.mem_cons_self tid rest
          · exact List.mem_cons_of_mem tid (h2 id hb)
        cases o <;> exact hall

/-- A stage records only ids of the stage. -/
theorem executeStage_trace (l : Lyra) (ctx : GoVal) (stage : List String)
    (r : Result) : ∀ id ∈ (l.executeStage ctx stage r).2.2, id ∈ stage := by
  unfold Lyra.executeStage
  cases stage with
  | nil =>
    cases hrs : l.runStageTasks ctx [] r with
    | mk errs rest3 =>
      obtain ⟨r2, tr2, pan⟩ := rest3
      have h := runStageTasks_trace l ctx [] r
      rw [hrs] at h
      dsimp only
      cases pan <;> [skip; exact h]
      cases errs <;> exact h
  | cons tid rest =>
    cases rest with
    | nil =>
      intro id h
      exact (executeTask_trace l ctx tid r id h) ▸ List.mem_cons_self tid []
    | cons tid2 rest2 =>
      cases hrs : l.runStageTasks ctx (tid :: tid2 :: rest2) r with
      | mk errs rest3 =>
        obtain ⟨r2, tr2, pan⟩ := rest3
        have h := runStageTasks_trace l ctx (tid :: tid2 :: rest2) r
        rw [hrs] at h
        dsimp only
        cases pan <;> [skip; exact h]
        cases errs <;> exact h

/-- Processing records only ids of the processed stages. -/
theorem processStages_trace (l : Lyra) (ctx : GoVal)
    (stages : List (List String)) (r : Result) :
    ∀ id ∈ (l.processStages ctx stages r).2.2, ∃ s, s ∈ stages ∧ id ∈ s := by
  induction stages generalizing r with
  | nil => intro id h; cases h
  | cons stage rest ih =>
    unfold Lyra.processStages
    cases hex : l.executeStage ctx stage r with
    | mk o rest2 =>
      obtain ⟨r1, tr1⟩ := rest2
      have h1 := executeStage_trace l ctx stage r
      rw [hex] at h1
      dsimp only at h1
      cases o with
      | ok u =>
        dsimp only
        cases hps : l.processStages ctx rest r1 with
        | mk o2 rest3 =>
          obtain ⟨r2, tr2⟩ := rest3
          have h2 := ih r1
          rw [hps] at h2
          dsimp only at h2
          intro id h
          rcases List.mem_append.mp h with ha | hb
          · exact ⟨stage, List.mem_cons_self stage rest, h1 id ha⟩
          · obtain ⟨s, hs, hid⟩ := h2 id hb
            exact ⟨s, List.mem_cons_of_mem stage hs, hid⟩
      | err e =>
        intro id h
        exact ⟨stage, List.mem_cons_self stage rest, h1 id h⟩
      | panicked =>
        intro id h
        exact ⟨stage, List.mem_cons_self stage rest, h1 id h⟩

/-- The one-step equation of processStages on a non-empty stage list. -/
theorem processStages_cons (l : Lyra) (ctx : GoVal) (stage : List String)
    (rest : List (List String)) (r : Result) (o : Outc Unit) (r1 : Result)
    (tr1 : List String)
    (hex : l.executeStage ctx stage r = (o, r1, tr1)) :
    l.processStages ctx (stage :: rest) r =
      (match o with
       | .ok _ =>
         (match l.processStages ctx rest r1 with
          | (o2, r2, tr2) => (o2, r2, tr1 ++ tr2))
       | .err e => (.err (.wrap "execute stage" e), r1, tr1)
       | .panicked => (.panicked, r1, tr1)) := by
  have h1 : (l.executeStage ctx stage r).1 = o := by rw [hex]
  have h2 : (l.executeStage ctx stage r).2.1 = r1 := by rw [hex]
  have h3 : (l.executeStage ctx stage r).2.2 = tr1 := by rw [hex]
  simp only [Lyra.processStages, h1, h2, h3]
  cases o with
  | ok u =>
    cases hp : l.processStages ctx rest r1 with
    | mk o2 rest3 =>
      obtain ⟨r2, tr2⟩ := rest3
      rfl
  | err e => rfl
  | panicked => rfl

/-- Processing a list split after an error-free prefix. -/
theorem processStages_append (l : Lyra) (ctx : GoVal)
    (pre rest : List (List String)) (r r1 : Result) (tr1 : List String)
    (h : l.processStages ctx pre r = (.ok (), r1, tr1)) :
    l.processStages ctx (pre ++ rest) r =
      (match l.processStages ctx rest r1 with
       | (o2, r2, tr2) => (o2, r2, tr1 ++ tr2)) := by
  induction pre generalizing r tr1 with
  | nil =>
    cases h
    show l.processStages ctx rest r1 = _
    cases l.processStages ctx rest r1 with
    | mk o2 rest3 =>
      obtain ⟨r2, tr2⟩ := rest3
      simp
  | cons s ps ih =>
    cases hex : l.executeStage ctx s r with
    | mk o rest2 =>
      obtain ⟨ra, tra⟩ := rest2
      rw [processStages_cons l ctx s ps r o ra tra hex] at h
      cases o with
      | ok u =>
        cases hps : l.processStages ctx ps ra with
        | mk o2 rest3 =>
          obtain ⟨rb, trb⟩ := rest3
          rw [hps] at h
          dsimp only at h
          cases h
          show l.processStages ctx (s :: (ps ++ rest)) r = _
          rw [processStages_cons l ctx s (ps ++ rest) r (.ok u) ra tra hex]
          rw [ih ra trb hps]
          cases hrest : l.processStages ctx rest r1 with
          | mk o3 rest4 =>
            obtain ⟨rc, trc⟩ := rest4
            simp [List.append_assoc]
      | err e => dsimp only at h; cases h
      | panicked => dsimp only at h; cases h

/-- C1: once a level produces an error, Run stops right after it — it
returns a null result handle with the error wrapped (execute stage, then
failed to process stages), and the set of invoked task ids is contained in
the levels up to and including the failing one, so no task of a later level
runs.  The last two conjuncts connect the stage error to its cause: a
single-task stage errors exactly when its task does, and a multi-task stage
errors whenever some task reported an error and none panicked. -/
theorem c1_abort_after_error_level (l : Lyra) (ctx : GoVal)
    (runInputs : List (String × GoVal)) (pre : List (List String))
    (stage : List String) (post : List (List String)) (e : LErr)
    (r1 r2 : Result) (tr1 tr2 : List String)
    (hnoerr : l.error = none)
    (hstages : l.getStages = .ok (pre ++ stage :: post))
    (hpre : l.processStages ctx pre (initialiseResult runInputs) =
      (.ok (), r1, tr1))
    (herr : l.executeStage ctx stage r1 = (.err e, r2, tr2)) :
    l.Run ctx runInputs =
      .returned none
        (some (.wrap "failed to process stages" (.wrap "execute stage" e)))
        (tr1 ++ tr2) ∧
    (∀ id ∈ tr1 ++ tr2, ∃ s, s ∈ pre ++ [stage] ∧ id ∈ s) ∧
    (∀ id, (∃ s, s ∈ post ∧ id ∈ s) →
      ¬ (∃ s, s ∈ pre ++ [stage] ∧ id ∈ s) → id ∉ tr1 ++ tr2) ∧
    (∀ (tid : String) (r : Result) (e2 : LErr) (r3 : Result) (tr3 : List String),
      l.executeTask ctx tid r = (.err e2, r3, tr3) →
      l.executeStage ctx [tid] r = (.err e2, r3, tr3)) ∧
    (∀ (stage2 : List String) (r : Result), 2 ≤ stage2.length →
      (l.runStageTasks ctx stage2 r).2.2.2 = false →
      (l.runStageTasks ctx stage2 r).1 ≠ [] →
      ∃ e2, (l.executeStage ctx stage2 r).1 = .err e2) := by
  have hproc : l.processStages ctx (pre ++ stage :: post)
      (initialiseResult runInputs) =
      (.err (.wrap "execute stage" e), r2, tr1 ++ tr2) := by
    rw [processStages_append l ctx pre (stage :: post)
      (initialiseResult runInputs) r1 tr1 hpre]
    unfold Lyra.processStages
    rw [herr]
  have hsub : ∀ id ∈ tr1 ++ tr2, ∃ s, s ∈ pre ++ [stage] ∧ id ∈ s := by
    intro id hid
    rcases List.mem_append.mp hid with h1 | h2
    · have h := processStages_trace l ctx pre (initialiseResult runInputs)
      rw [hpre] at h
      dsimp only at h
      obtain ⟨s, hs, hins⟩ := h id h1
      exact ⟨s, List.mem_append.mpr (Or.inl hs), hins⟩
    · have h := executeStage_trace l ctx stage r1
      rw [herr] at h
      dsimp only at h
      exact ⟨stage, List.mem_append.mpr (Or.inr (by simp)), h id h2⟩
  refine ⟨?_, hsub, ?_, ?_, ?_⟩
  · unfold Lyra.Run
    rw [hnoerr]
    dsimp only
    rw [hstages]
    dsimp only
    rw [hproc]
  · intro id hpost hnot hin
    exact hnot (hsub id hin)
  · intro tid r e2 r3 tr3 hex
    show l.executeStage ctx [tid] r = _
    unfold Lyra.executeStage
    exact hex
  · intro stage2 r hlen hpan hne
    unfold Lyra.executeStage
    cases stage2 with
    | nil => cases hlen
    | cons tid rest =>
      cases rest with
      | nil => simp at hlen
      | cons tid2 rest2 =>
        cases hrs : l.runStageTasks ctx (tid :: tid2 :: rest2) r with
        | mk errs rest3 =>
          obtain ⟨r4, tr4, pan⟩ := rest3
          rw [hrs] at hpan hne
          dsimp only at hpan hne
          dsimp only
          cases pan with
          | true => cases hpan
          | false =>
            cases errs with
            | nil => exact absurd rfl hne
            | cons e0 es => exact ⟨.joined (e0 :: es), rfl⟩

/-- C1, witness: the failing first-level task of lC1 aborts the run before
its dependent second-level task b, which never appears in the invocation
trace. -/
theorem c1_abort_after_error_level_witness :
    lC1.Run ctxVal [] =
      .returned none
        (some (.wrap "failed to process stages"
          (.wrap "execute stage" (.msgE "boom"))))
        (([] : List String) ++ ["a"]) ∧
    "b" ∉ (([] : List String) ++ ["a"]) := by
  have h := c1_abort_after_error_level lC1 ctxVal [] [] ["a"] [["b"]]
    (.msgE "boom") { data := [] } { data := [] } [] ["a"]
    rfl rfl rfl rfl
  refine ⟨h.1, ?_⟩
  refine h.2.2.1 "b" ⟨["b"], by simp, by simp⟩ ?_
  rintro ⟨s, hs, hb⟩
  simp only [List.nil_append, List.mem_singleton] at hs
  subst hs
  simp at hb

/-- C9, witness: the amended claim at the single error-only task of lC9 run
with no runtime inputs. -/
theorem c9_error_only_task_not_found_witness :
    Result.Get { data := [] } "t" = .error (.taskNotFoundE "t") :=
  (c9_error_only_task_not_found lC9 ctxVal [] "t"
    { id := "t", fn := fnErrOnlyOk,
      fnInfo := { inputTypes := [ctxT], outputType := none },
      inputSpecs := [] }
    { ty := { params := [ctxT], results := [errT], variadic := false },
      call := fun _ => [.nilInterface],
      call_len := fun _ => rfl }
    { data := [] } ["t"]
    rfl rfl rfl rfl (by simp)).1

end LyraSpec

